import Mathlib

/-! Verification of the OpenCode skill-auditor analysis engine.

A shallow embedding of the corpus-analysis engine of
`skills/opencode-skill-auditor/analyze.py`: section extraction,
`difflib.SequenceMatcher`-based weighted similarity, the duplicity matrix,
token-cost estimation and banding, lexical capability detection, and
subagent-compatibility resolution.  Strings are modelled as `List Char`,
Python floats as exact rationals, and `int(...)` truncation on nonnegative
values as `Int.floor`.
-/

namespace SkillAuditor

/-- Text is modelled as a list of characters. -/
abbrev Str := List Char

/-- Python `str.lower()`, modelled as per-character lowercasing. -/
def lower (s : Str) : Str := s.map Char.toLower

/-- Python `needle in haystack` substring containment. -/
def substrB (n : Str) : Str → Bool
  | [] => n.isEmpty
  | c :: t => n.isPrefixOf (c :: t) || substrB n t

/-- Python `str.find`: index of the first occurrence of `n` in the text,
`none` when absent (the source's `-1`). -/
def strFind (n : Str) : Str → Option Nat
  | [] => if n.isEmpty then some 0 else none
  | c :: t => if n.isPrefixOf (c :: t) then some 0 else (strFind n t).map (· + 1)

/-- Auxiliary loop for `countSub`, with fuel bounding the number of scan
steps (each step consumes at least one character of the haystack). -/
def countSubAux (n : Str) : Nat → Str → Nat
  | 0, _ => 0
  | _ + 1, [] => 0
  | fuel + 1, c :: t =>
    if n ≠ [] ∧ n.isPrefixOf (c :: t) then
      1 + countSubAux n fuel ((c :: t).drop n.length)
    else
      countSubAux n fuel t

/-- Python `str.count`: number of non-overlapping occurrences of a
nonempty needle, scanning left to right. -/
def countSub (n h : Str) : Nat := countSubAux n h.length h

/-- Model of `_extract_section`: the slice of `content` from the first occurrence of
`startMarker` up to (excluding) the first occurrence of `endMarker`, both
searched from the beginning; empty when either marker is absent. -/
def extract_section (content startMarker endMarker : Str) : Str :=
  match strFind startMarker content, strFind endMarker content with
  | some i, some j => (content.drop i).take (j - i)
  | _, _ => []

/-! Section: `difflib.SequenceMatcher` (isjunk = None, autojunk = True)

The matcher is embedded exactly: the `b2j` index with the autojunk
popularity filter, the quadratic longest-match scan with its
first-strictly-longer tie-breaking, the equal-character extension loops
(the junk-extension loops are dead since the junk set is empty when
`isjunk` is `None`), and the recursive matching-block decomposition.
Loops are given explicit fuel that provably dominates their iteration
counts, so every definition is structural and executable. -/

/-- Indices (ascending) at which character `c` occurs in `b`. -/
def positions (c : Char) (b : Str) : List Nat :=
  (b.enum.filter (fun p => p.2 = c)).map (·.1)

/-- The `b2j` index of `SequenceMatcher`: occurrence positions of `c` in
`b`, except that when `b` has at least 200 characters the "popular"
characters (more than `len(b) // 100 + 1` occurrences) are dropped. -/
def b2j (b : Str) (c : Char) : List Nat :=
  let ps := positions c b
  if 200 ≤ b.length ∧ b.length / 100 + 1 < ps.length then [] else ps

/-- A candidate match: start in `a`, start in `b`, length.  The record of
`find_longest_match`'s running best. -/
structure Best where
  i : Nat
  j : Nat
  size : Nat
deriving DecidableEq

/-- Lookup in a `j2len` row (association list from `b`-index to run
length), defaulting to `0` as `dict.get(j-1, 0)` does. -/
def lookupD (l : List (Nat × Nat)) (k : Nat) : Nat :=
  ((l.find? (fun p => p.1 = k)).map (·.2)).getD 0

/-- The inner loop of `find_longest_match`: one row `i`, scanning the
positions `js` of `a[i]` inside `[blo, bhi)`, building the new `j2len`
row from the previous one and updating the best on strictly longer runs. -/
def innerLoop (i : Nat) (j2old : List (Nat × Nat)) :
    List Nat → Best → List (Nat × Nat) → Best × List (Nat × Nat)
  | [], best, acc => (best, acc)
  | j :: js, best, acc =>
    let k := (if j = 0 then 0 else lookupD j2old (j - 1)) + 1
    let best' := if best.size < k then ⟨i + 1 - k, j + 1 - k, k⟩ else best
    innerLoop i j2old js best' ((j, k) :: acc)

/-- The outer loop of `find_longest_match` over the rows `i ∈ [alo, ahi)`. -/
def outerLoop (a b : Str) (blo bhi : Nat) :
    List Nat → Best → List (Nat × Nat) → Best
  | [], best, _ => best
  | i :: is', best, j2old =>
    let js := (b2j b (a.getD i ' ')).filter
      (fun j => decide (blo ≤ j) && decide (j < bhi))
    let st := innerLoop i j2old js best []
    outerLoop a b blo bhi is' st.1 st.2

/-- Left extension of the best match over equal characters (the junk set
is empty, so the non-junk guard is vacuous).  Fuel dominates `best.i`. -/
def extLeft (a b : Str) (alo blo : Nat) : Nat → Best → Best
  | 0, best => best
  | fuel + 1, best =>
    if alo < best.i ∧ blo < best.j ∧
        a.getD (best.i - 1) ' ' = b.getD (best.j - 1) ' ' then
      extLeft a b alo blo fuel ⟨best.i - 1, best.j - 1, best.size + 1⟩
    else best

/-- Right extension of the best match over equal characters.  Fuel
dominates `ahi`. -/
def extRight (a b : Str) (ahi bhi : Nat) : Nat → Best → Best
  | 0, best => best
  | fuel + 1, best =>
    if best.i + best.size < ahi ∧ best.j + best.size < bhi ∧
        a.getD (best.i + best.size) ' ' = b.getD (best.j + best.size) ' ' then
      extRight a b ahi bhi fuel ⟨best.i, best.j, best.size + 1⟩
    else best

/-- Model of `SequenceMatcher.find_longest_match` on `a[alo:ahi]` / `b[blo:bhi]`. -/
def find_longest_match (a b : Str) (alo ahi blo bhi : Nat) : Best :=
  let rows := (List.range (ahi - alo)).map (· + alo)
  let best := outerLoop a b blo bhi rows ⟨alo, blo, 0⟩ []
  let best := extLeft a b alo blo best.i best
  extRight a b ahi bhi ahi best

/-- Total size of all matching blocks of `get_matching_blocks`, written as
the underlying recursive decomposition (match in the middle, recurse on
both sides).  Fuel dominates the recursion depth: each recursive call
strictly shrinks `(ahi - alo) + (bhi - blo)`. -/
def matchesAux (a b : Str) : Nat → Nat → Nat → Nat → Nat → Nat
  | 0, _, _, _, _ => 0
  | fuel + 1, alo, ahi, blo, bhi =>
    let m := find_longest_match a b alo ahi blo bhi
    if m.size = 0 then 0
    else
      m.size + matchesAux a b fuel alo m.i blo m.j +
        matchesAux a b fuel (m.i + m.size) ahi (m.j + m.size) bhi

/-- Total number of matched characters between `a` and `b`. -/
def matchesTotal (a b : Str) : Nat :=
  matchesAux a b (a.length + b.length + 1) 0 a.length 0 b.length

/-- Model of `SequenceMatcher.ratio()`: `2*M / T` as an exact rational, `1` when
both sequences are empty (`_calculate_ratio`). -/
def ratioQ (a b : Str) : ℚ :=
  if a.length + b.length = 0 then 1
  else (2 * matchesTotal a b : ℚ) / (a.length + b.length : ℚ)

/-- A parsed skill document: the fields `_extract_skill_content` produces. -/
structure Skill where
  name : Str
  description : Str
  what_i_do : Str
  when_to_use : Str
  steps : Str
  full_content : Str
  char_count : Nat
deriving DecidableEq, Inhabited

/-- The five weighted comparison fields of `_calculate_similarity`, with
their fixed weights (0.15, 0.25, 0.30, 0.20, 0.10) as exact rationals. -/
def weightedFields : List ((Skill → Str) × ℚ) :=
  [(Skill.name, 3 / 20), (Skill.description, 1 / 4), (Skill.what_i_do, 3 / 10),
    (Skill.when_to_use, 1 / 5), (Skill.steps, 1 / 10)]

/-- Model of `_calculate_similarity`: per-field case-folded matching ratio times
weight, summed, times 100, truncated to an integer. -/
def calculate_similarity (s1 s2 : Skill) : ℤ :=
  ⌊(weightedFields.map
      (fun fw => fw.2 * ratioQ (lower (fw.1 s1)) (lower (fw.1 s2)))).sum * 100⌋

/-- Stable insertion of `x` into `l` with respect to `r` (Mathlib's
`List.orderedInsert` applied through `List.insertionSort` below models
Python's stable sorts). -/
def sortNames (l : List Str) : List Str :=
  List.insertionSort (fun u v => u ≤ v) l

/-- Model of `calculate_duplicity_matrix`, parameterized by the pairwise scoring
function: rows and columns over the sorted document names, diagonal set
to `100` by the identity convention without consulting the score. -/
def duplicityMatrixWith (f : Skill → Skill → ℤ)
    (corpus : List (Str × Skill)) : List (Str × List (Str × ℤ)) :=
  let names := sortNames (corpus.map (·.1))
  let get := fun n => (((corpus.find? (fun p => p.1 = n)).map (·.2)).getD default)
  names.map (fun n1 =>
    (n1, names.map (fun n2 =>
      (n2, if n1 = n2 then 100 else f (get n1) (get n2)))))

/-- Model of `calculate_duplicity_matrix` as in the source, scoring pairs with
`_calculate_similarity`. -/
def calculate_duplicity_matrix (corpus : List (Str × Skill)) :
    List (Str × List (Str × ℤ)) :=
  duplicityMatrixWith calculate_similarity corpus

/-- Model of `estimate_tokens`: `int(char_count / 4 * 1.1)` in exact arithmetic. -/
def estimate_tokens (sk : Skill) : ℤ :=
  ⌊(sk.char_count : ℚ) / 4 * (11 / 10)⌋

/-- The cost band of `analyze_token_costs`: `"CRITICAL"` above 3000,
else `"WARNING"` above 2000, else the initial `"OK"`. -/
def tokenStatus (tokens : ℤ) : String :=
  if 3000 < tokens then "CRITICAL"
  else if 2000 < tokens then "WARNING"
  else "OK"

/-- Model of `_classify_skill`: category from the document name's affixes. -/
def classify_skill (skillName : Str) : String :=
  if ("python-".toList.isPrefixOf skillName ||
      "javascript-".toList.isPrefixOf skillName ||
      "nextjs-".toList.isPrefixOf skillName) then "language-specific"
  else if "-linter".toList.isSuffixOf skillName then "linting"
  else if ("-test-creator".toList.isSuffixOf skillName ||
      "-pytest".toList.isSuffixOf skillName) then "testing"
  else if ("git-".toList.isPrefixOf skillName ||
      "jira-".toList.isPrefixOf skillName) then "git/jira"
  else if "opentofu-".toList.isPrefixOf skillName then "opentofu"
  else if "opencode-".toList.isPrefixOf skillName then "opencode-meta"
  else if ("-setup".toList.isSuffixOf skillName ||
      "-standard".toList.isSuffixOf skillName) then "project-setup"
  else if "-workflow".toList.isSuffixOf skillName then "workflow"
  else if "-framework".toList.isSuffixOf skillName then "framework"
  else "other"

/-- One row of `analyze_token_costs`'s output. -/
structure TokenRecord where
  name : Str
  char_count : Nat
  tokens : ℤ
  status : String
  code_blocks : Nat
  category : String
deriving DecidableEq

/-- Model of `analyze_token_costs`: one record per document in corpus order, then a
stable sort by token estimate, descending (`sort(key=..., reverse=True)`). -/
def analyze_token_costs (corpus : List (Str × Skill)) : List TokenRecord :=
  let records := corpus.map (fun p =>
    { name := p.1
      char_count := p.2.char_count
      tokens := estimate_tokens p.2
      status := tokenStatus (estimate_tokens p.2)
      code_blocks := countSub ("```".toList) p.2.full_content / 2
      category := classify_skill p.1 : TokenRecord })
  List.insertionSort (fun u v => v.tokens ≤ u.tokens) records

/-- The boolean requirement flags of `_extract_tool_requirements`. -/
structure ToolRequirements where
  has_bash : Bool
  has_python : Bool
  has_task : Bool
  has_atlassian_mcp : Bool
  has_drawio_mcp : Bool
  has_zai_mcp : Bool
  has_question : Bool
deriving DecidableEq

/-- Model of `_extract_tool_requirements`: fenced code-type markers and the
delegation words are matched case-sensitively, the MCP identifiers and
`question` against the lowercased body. -/
def extract_tool_requirements (content : Str) : ToolRequirements :=
  { has_bash := substrB ("```bash".toList) content
    has_python := substrB ("```python".toList) content
    has_task := substrB ("task".toList) content ||
      substrB ("delegate".toList) content ||
      substrB ("subagent".toList) content
    has_atlassian_mcp := substrB ("atlassian".toList) (lower content)
    has_drawio_mcp := substrB ("drawio".toList) (lower content)
    has_zai_mcp := substrB ("zai-mcp-server".toList) (lower content)
    has_question := substrB ("question".toList) (lower content) }

/-- A subagent capability profile. -/
structure Profile where
  allowed_tools : List String
  allowed_mcp : List String
  description : String
deriving DecidableEq

/-- The `primary` profile: full access, all three MCP servers. -/
def primaryProfile : Profile :=
  { allowed_tools := ["read", "write", "edit", "glob", "grep", "bash",
      "task", "todowrite", "todoread", "question"]
    allowed_mcp := ["atlassian", "drawio", "zai-mcp-server"]
    description := "Full access" }

/-- The seven subagent profiles of `check_subagent_compatibility`, in
their source order. -/
def subagents : List (String × Profile) :=
  [("primary", primaryProfile),
    ("linting-subagent",
      { allowed_tools := ["read", "write", "edit", "glob", "grep"]
        allowed_mcp := []
        description := "Linting specialization" }),
    ("testing-subagent",
      { allowed_tools := ["read", "write", "edit", "glob", "grep"]
        allowed_mcp := []
        description := "Testing specialization" }),
    ("git-workflow-subagent",
      { allowed_tools := ["read", "write", "edit", "glob", "grep"]
        allowed_mcp := ["atlassian"]
        description := "Git/JIRA specialization" }),
    ("documentation-subagent",
      { allowed_tools := ["read", "write", "edit", "glob", "grep"]
        allowed_mcp := []
        description := "Documentation specialization" }),
    ("opentofu-explorer-subagent",
      { allowed_tools := ["read", "write", "edit", "glob", "grep"]
        allowed_mcp := []
        description := "OpenTofu specialization" }),
    ("workflow-subagent",
      { allowed_tools := ["read", "write", "edit", "glob", "grep"]
        allowed_mcp := ["atlassian"]
        description := "Workflow coordination" })]

/-- Model of `_check_compatibility`: delegation only under the full-access profile,
and each detected MCP server must be in the profile's allowed list. -/
def check_compatibility (req : ToolRequirements) (res : Profile) : Bool :=
  if req.has_task && !(res.description = "Full access" : Bool) then false
  else if req.has_atlassian_mcp && !(res.allowed_mcp.contains "atlassian") then false
  else if req.has_drawio_mcp && !(res.allowed_mcp.contains "drawio") then false
  else if req.has_zai_mcp && !(res.allowed_mcp.contains "zai-mcp-server") then false
  else true

/-- Model of `check_subagent_compatibility`: for each document in corpus order, the
compatibility booleans against each of the seven profiles. -/
def check_subagent_compatibility (corpus : List (Str × Skill)) :
    List (Str × List (String × Bool)) :=
  corpus.map (fun p =>
    (p.1, subagents.map (fun q =>
      (q.1, check_compatibility (extract_tool_requirements p.2.full_content) q.2))))

/-! Section: concrete documents used as test inputs -/

/-- A document with every extracted field empty. -/
def emptySkill : Skill :=
  { name := [], description := [], what_i_do := [], when_to_use := [],
    steps := [], full_content := [], char_count := 0 }

/-- A document whose description is the lowercase text `aba`. -/
def skillAba : Skill := { emptySkill with description := "aba".toList }

/-- A document whose description is the lowercase text `babba`. -/
def skillBabba : Skill := { emptySkill with description := "babba".toList }

/-- A document of 7273 characters: its token estimate is exactly 2000. -/
def skill7273 : Skill := { emptySkill with char_count := 7273 }

/-- A document of 10910 characters: its token estimate is exactly 3000. -/
def skill10910 : Skill := { emptySkill with char_count := 10910 }

/-- A document of 8000 characters: its token estimate is 2200. -/
def skill8000 : Skill := { emptySkill with char_count := 8000 }

/-- A two-document corpus whose names arrive in the order `b`, `a`, with
the `b` document costing more tokens than the `a` document. -/
def corpusBA : List (Str × Skill) :=
  [("b".toList, skill8000), ("a".toList, emptySkill)]

/-! Section: helper lemmas -/

/-- The token estimate in closed form: `⌊11 · char_count / 40⌋`. -/
theorem estimate_tokens_eq (sk : Skill) :
    estimate_tokens sk = (11 * (sk.char_count : ℤ)) / 40 := by
  unfold estimate_tokens
  rw [show ((sk.char_count : ℚ) / 4 * (11 / 10)) =
      (((11 * (sk.char_count : ℤ) : ℤ) : ℚ) / ((40 : ℕ) : ℚ)) by push_cast; ring]
  exact_mod_cast Rat.floor_intCast_div_natCast (11 * (sk.char_count : ℤ)) 40

/-! Section C6: exactness of the cost-estimate formula -/

/-- C6: for every document the cost estimate equals
`floor(size / 4 * 1.1)` computed exactly, which is `floor(size * 11 / 40)`;
in particular 8000 characters give 2200 and 0 characters give 0. -/
theorem cost_estimate_exact (sk : Skill) :
    estimate_tokens sk = (11 * (sk.char_count : ℤ)) / 40 ∧
    (sk.char_count = 8000 → estimate_tokens sk = 2200) ∧
    (sk.char_count = 0 → estimate_tokens sk = 0) := by
  refine ⟨estimate_tokens_eq sk, fun h => ?_, fun h => ?_⟩ <;>
    rw [estimate_tokens_eq sk, h] <;> norm_num

/-- Witness for C6 at a concrete 8000-character document. -/
theorem cost_estimate_exact_witness :
    skill8000.char_count = 8000 ∧ estimate_tokens skill8000 = 2200 :=
  ⟨rfl, (cost_estimate_exact skill8000).2.1 rfl⟩

/-! Section C9: monotonicity of the cost estimate -/

/-- C9: the cost estimate is monotonically non-decreasing in document
size: if one document is no larger than another, its estimate is no
larger either. -/
theorem cost_estimate_monotone (s1 s2 : Skill)
    (h : s1.char_count ≤ s2.char_count) :
    estimate_tokens s1 ≤ estimate_tokens s2 := by
  unfold estimate_tokens
  have hq : (s1.char_count : ℚ) ≤ (s2.char_count : ℚ) := by exact_mod_cast h
  apply Int.floor_le_floor
  linarith

/-- Witness for C9 at concrete sizes 0 ≤ 8000. -/
theorem cost_estimate_monotone_witness :
    emptySkill.char_count ≤ skill8000.char_count ∧
    estimate_tokens emptySkill ≤ estimate_tokens skill8000 :=
  ⟨by decide, cost_estimate_monotone emptySkill skill8000 (by decide)⟩

/-! Section C3: cost bands -/

/-- The band function in terms of threshold inequalities. -/
theorem tokenStatus_spec (t : ℤ) :
    (tokenStatus t = "CRITICAL" ↔ 3000 < t) ∧
    (tokenStatus t = "WARNING" ↔ 2000 < t ∧ t ≤ 3000) ∧
    (tokenStatus t = "OK" ↔ t ≤ 2000) := by
  unfold tokenStatus
  split_ifs with h1 h2 <;> refine ⟨?_, ?_, ?_⟩ <;> simp <;> omega

/-- Every record of `analyze_token_costs` carries the band of its own
token estimate. -/
theorem analyze_status_eq (corpus : List (Str × Skill)) (rec : TokenRecord)
    (h : rec ∈ analyze_token_costs corpus) :
    rec.status = tokenStatus rec.tokens := by
  unfold analyze_token_costs at h
  have h' := (List.perm_insertionSort _ _).mem_iff.1 h
  rcases List.mem_map.1 h' with ⟨p, _, he⟩
  subst he
  rfl

/-- C3 counterexample: a 7273-character document has token estimate
exactly 2000; the claim classifies it "warning", but the code's strict
comparison leaves the band at `"OK"` (normal). -/
theorem cost_band_at_2000_counterexample :
    estimate_tokens skill7273 = 2000 ∧
    tokenStatus (estimate_tokens skill7273) = "OK" ∧
    ("OK" : String) ≠ "WARNING" ∧
    estimate_tokens skill10910 = 3000 ∧
    tokenStatus (estimate_tokens skill10910) = "WARNING" ∧
    ("WARNING" : String) ≠ "CRITICAL" := by
  have h1 : estimate_tokens skill7273 = 2000 := by rw [estimate_tokens_eq]; decide
  have h2 : estimate_tokens skill10910 = 3000 := by rw [estimate_tokens_eq]; decide
  exact ⟨h1, by rw [h1]; decide, by decide, h2, by rw [h2]; decide, by decide⟩

/-- C3 (amended): the bands use strictly-above thresholds: a record is
`"CRITICAL"` iff its estimate is strictly above 3000, `"WARNING"` iff
strictly above 2000 and at most 3000, and `"OK"` (normal) iff at most
2000 — so an estimate of exactly 2000 is normal and exactly 3000 is
warning. -/
theorem cost_band_strict (corpus : List (Str × Skill)) (rec : TokenRecord)
    (h : rec ∈ analyze_token_costs corpus) :
    (rec.status = "CRITICAL" ↔ 3000 < rec.tokens) ∧
    (rec.status = "WARNING" ↔ 2000 < rec.tokens ∧ rec.tokens ≤ 3000) ∧
    (rec.status = "OK" ↔ rec.tokens ≤ 2000) := by
  rw [analyze_status_eq corpus rec h]
  exact tokenStatus_spec rec.tokens

/-- Witness for C3 (amended) at the concrete 7273-character document. -/
theorem cost_band_strict_witness :
    ((⟨"a".toList, 7273, 2000, "OK", 0, "other"⟩ : TokenRecord) ∈
      analyze_token_costs [("a".toList, skill7273)]) ∧
    ((("OK" : String) = "CRITICAL" ↔ (3000 : ℤ) < 2000) ∧
      (("OK" : String) = "WARNING" ↔ (2000 : ℤ) < 2000 ∧ (2000 : ℤ) ≤ 3000) ∧
      (("OK" : String) = "OK" ↔ (2000 : ℤ) ≤ 2000)) := by
  have h1 : estimate_tokens skill7273 = 2000 := by rw [estimate_tokens_eq]; decide
  have hmem : (⟨"a".toList, 7273, 2000, "OK", 0, "other"⟩ : TokenRecord) ∈
      analyze_token_costs [("a".toList, skill7273)] := by
    unfold analyze_token_costs
    simp only [List.map_cons, List.map_nil, List.insertionSort, h1]
    simp only [List.orderedInsert]
    decide
  exact ⟨hmem, cost_band_strict _ _ hmem⟩

/-! Section C2: the duplicity-matrix diagonal convention -/

/-- C2: for every pairwise scoring function and every corpus, the matrix
row of a document contains the entry 100 for that same document: the
diagonal is 100 by the identity convention, independent of (and without
evaluating) the scoring formula. -/
theorem duplicity_diagonal_100 (f : Skill → Skill → ℤ)
    (corpus : List (Str × Skill)) (n : Str) (rows : List (Str × ℤ))
    (h : (n, rows) ∈ duplicityMatrixWith f corpus) :
    (n, (100 : ℤ)) ∈ rows := by
  unfold duplicityMatrixWith at h
  rcases List.mem_map.1 h with ⟨n1, hn1, he⟩
  have h1 : n1 = n := congrArg Prod.fst he
  have h2 : rows = (sortNames (corpus.map (·.1))).map (fun n2 =>
      (n2, if n1 = n2 then 100 else
        f ((((corpus.find? (fun p => p.1 = n1)).map (·.2)).getD default))
          ((((corpus.find? (fun p => p.1 = n2)).map (·.2)).getD default)))) :=
    (congrArg Prod.snd he).symm
  subst h1
  subst h2
  refine List.mem_map.2 ⟨n1, hn1, ?_⟩
  simp

/-- Witness for C2 on a one-document corpus with an arbitrary scoring
function that never returns 100. -/
theorem duplicity_diagonal_100_witness :
    (("a".toList, [("a".toList, (100 : ℤ))]) ∈
      duplicityMatrixWith (fun _ _ => 0) [("a".toList, emptySkill)]) ∧
    ("a".toList, (100 : ℤ)) ∈ [("a".toList, (100 : ℤ))] := by
  have hm : ("a".toList, [("a".toList, (100 : ℤ))]) ∈
      duplicityMatrixWith (fun _ _ => 0) [("a".toList, emptySkill)] := by decide
  exact ⟨hm, duplicity_diagonal_100 _ _ _ _ hm⟩

/-! Section C8: the unrestricted profile accepts every document -/

/-- The full-access profile passes `_check_compatibility` whatever the
requirement flags are. -/
theorem check_compatibility_primary (req : ToolRequirements) :
    check_compatibility req primaryProfile = true := by
  unfold check_compatibility primaryProfile
  simp

/-- C8: every row of the compatibility matrix marks the document
compatible with the unrestricted (`primary`, full-access) profile,
regardless of which requirement flags its body triggers. -/
theorem primary_always_compatible (corpus : List (Str × Skill)) (n : Str)
    (rows : List (String × Bool))
    (h : (n, rows) ∈ check_subagent_compatibility corpus) :
    ("primary", true) ∈ rows := by
  unfold check_subagent_compatibility at h
  rcases List.mem_map.1 h with ⟨p, _, he⟩
  have h2 : rows = subagents.map (fun q =>
      (q.1, check_compatibility (extract_tool_requirements p.2.full_content) q.2)) :=
    (congrArg Prod.snd he).symm
  subst h2
  refine List.mem_map.2 ⟨("primary", primaryProfile), ?_, ?_⟩
  · simp [subagents]
  · simp [check_compatibility_primary]

/-- Witness for C8 on a concrete one-document corpus. -/
theorem primary_always_compatible_witness :
    (("x".toList,
        [("primary", true), ("linting-subagent", true), ("testing-subagent", true),
          ("git-workflow-subagent", true), ("documentation-subagent", true),
          ("opentofu-explorer-subagent", true), ("workflow-subagent", true)]) ∈
      check_subagent_compatibility [("x".toList, emptySkill)]) ∧
    ("primary", true) ∈
      [("primary", true), ("linting-subagent", true), ("testing-subagent", true),
        ("git-workflow-subagent", true), ("documentation-subagent", true),
        ("opentofu-explorer-subagent", true), ("workflow-subagent", true)] := by
  have hm : ("x".toList,
      [("primary", true), ("linting-subagent", true), ("testing-subagent", true),
        ("git-workflow-subagent", true), ("documentation-subagent", true),
        ("opentofu-explorer-subagent", true), ("workflow-subagent", true)]) ∈
      check_subagent_compatibility [("x".toList, emptySkill)] := by decide
  exact ⟨hm, primary_always_compatible _ _ _ hm⟩

/-! Section C10: section extraction -/

/-- The function `strFind` returns the index of the first occurrence: the needle is a
prefix of the remainder there and at no earlier index. -/
theorem strFind_eq_some {n : Str} :
    ∀ {h : Str} {i : Nat}, strFind n h = some i →
      n <+: h.drop i ∧ ∀ k, k < i → ¬ (n <+: h.drop k) := by
  intro h
  induction h with
  | nil =>
    intro i hf
    unfold strFind at hf
    by_cases hn : n.isEmpty
    · simp [hn] at hf
      subst hf
      simp [List.isEmpty_iff.1 hn]
    · simp [hn] at hf
  | cons c t ih =>
    intro i hf
    unfold strFind at hf
    by_cases hp : n.isPrefixOf (c :: t)
    · simp [hp] at hf
      subst hf
      simpa using List.isPrefixOf_iff_prefix.1 hp
    · simp [hp] at hf
      rcases hf with ⟨i', hf', rfl⟩
      refine ⟨(ih hf').1, ?_⟩
      intro k hk
      match k with
      | 0 =>
        simpa using fun hcon => hp (List.isPrefixOf_iff_prefix.2 hcon)
      | k' + 1 =>
        simpa using (ih hf').2 k' (by omega)

/-- C10 counterexample: in the text `ab` with start marker `ab` and end
marker `b`, both markers occur, yet the extracted field is `a`, which
does not include the start marker text. -/
theorem extract_section_counterexample :
    strFind "ab".toList "ab".toList = some 0 ∧
    strFind "b".toList "ab".toList = some 1 ∧
    extract_section "ab".toList "ab".toList "b".toList = "a".toList ∧
    ¬ ("ab".toList <:+: extract_section "ab".toList "ab".toList "b".toList) := by
  decide

/-- C10 (amended): when both markers occur, the extracted field is the
slice from the first occurrence of the start marker up to (excluding)
the first occurrence of the end marker, both searched from the beginning
of the whole text; it is empty when the end marker's first occurrence is
at or before the start marker's, and it begins with the start marker text
whenever the end marker's first occurrence lies at or after the end of
the start-marker occurrence. -/
theorem extract_section_spec (content s e : Str) (i j : Nat)
    (hs : strFind s content = some i) (he : strFind e content = some j) :
    extract_section content s e = (content.drop i).take (j - i) ∧
    (j ≤ i → extract_section content s e = []) ∧
    (i + s.length ≤ j → s <+: extract_section content s e) ∧
    (s <+: content.drop i ∧ ∀ k, k < i → ¬ (s <+: content.drop k)) ∧
    (e <+: content.drop j ∧ ∀ k, k < j → ¬ (e <+: content.drop k)) := by
  have hval : extract_section content s e = (content.drop i).take (j - i) := by
    unfold extract_section
    rw [hs, he]
  refine ⟨hval, ?_, ?_, strFind_eq_some hs, strFind_eq_some he⟩
  · intro hji
    rw [hval, Nat.sub_eq_zero_of_le hji, List.take_zero]
  · intro hij
    rw [hval]
    exact List.prefix_take_iff.2 ⟨(strFind_eq_some hs).1, by omega⟩

/-- Witness for C10 (amended) on the text `abcde` with markers `b`, `d`. -/
theorem extract_section_spec_witness :
    strFind "b".toList "abcde".toList = some 1 ∧
    strFind "d".toList "abcde".toList = some 3 ∧
    (extract_section "abcde".toList "b".toList "d".toList =
        ("abcde".toList.drop 1).take (3 - 1) ∧
      (3 ≤ 1 → extract_section "abcde".toList "b".toList "d".toList = []) ∧
      (1 + "b".toList.length ≤ 3 →
        "b".toList <+: extract_section "abcde".toList "b".toList "d".toList) ∧
      ("b".toList <+: "abcde".toList.drop 1 ∧
        ∀ k, k < 1 → ¬ ("b".toList <+: "abcde".toList.drop k)) ∧
      ("d".toList <+: "abcde".toList.drop 3 ∧
        ∀ k, k < 3 → ¬ ("d".toList <+: "abcde".toList.drop k))) :=
  ⟨by decide, by decide,
    extract_section_spec "abcde".toList "b".toList "d".toList 1 3
      (by decide) (by decide)⟩

/-! Section C4: lexical capability cues -/

/-- The substring test agrees with list-infix containment. -/
theorem substrB_iff {n : Str} : ∀ {h : Str}, substrB n h = true ↔ n <:+: h := by
  intro h
  induction h with
  | nil =>
    simp [substrB, List.isEmpty_iff, List.infix_nil]
  | cons c t ih =>
    simp [substrB, Bool.or_eq_true, List.isPrefixOf_iff_prefix, ih,
      List.infix_cons_iff]

/-- C4 counterexample: the body `Delegate` carries the delegation cue
under case-insensitive matching, yet the delegation flag stays unset
because the code matches the delegation words case-sensitively. -/
theorem capability_case_counterexample :
    (extract_tool_requirements "Delegate".toList).has_task = false ∧
    "delegate".toList <:+: lower "Delegate".toList := by
  decide

/-- C4 (amended): the integration-identifier and interactive-clarification
cues are matched case-insensitively (against the lowercased body), while
the delegation cues (`task`, `delegate`, `subagent`) and the fenced
code-type markers are matched case-sensitively; each flag is set exactly
when its marker appears anywhere in the body under its matching rule. -/
theorem capability_cue_spec (content : Str) :
    ((extract_tool_requirements content).has_task = true ↔
      ("task".toList <:+: content ∨ "delegate".toList <:+: content ∨
        "subagent".toList <:+: content)) ∧
    ((extract_tool_requirements content).has_atlassian_mcp = true ↔
      "atlassian".toList <:+: lower content) ∧
    ((extract_tool_requirements content).has_drawio_mcp = true ↔
      "drawio".toList <:+: lower content) ∧
    ((extract_tool_requirements content).has_zai_mcp = true ↔
      "zai-mcp-server".toList <:+: lower content) ∧
    ((extract_tool_requirements content).has_question = true ↔
      "question".toList <:+: lower content) ∧
    ((extract_tool_requirements content).has_bash = true ↔
      "```bash".toList <:+: content) ∧
    ((extract_tool_requirements content).has_python = true ↔
      "```python".toList <:+: content) := by
  unfold extract_tool_requirements
  simp only [Bool.or_eq_true, substrB_iff]
  tauto

/-! Section C7: the similarity score is an integer in [0, 100]

The key fact is that the total matched size never exceeds either
sequence's length.  This follows from an invariant of
`find_longest_match`: the reported match lies inside the requested
ranges, `alo ≤ i`, `blo ≤ j`, `i + size ≤ ahi`, `j + size ≤ bhi`. -/

/-- A positive `lookupD` value comes from an entry of the list. -/
theorem lookupD_cases (l : List (Nat × Nat)) (k : Nat) :
    lookupD l k = 0 ∨ ∃ p ∈ l, p.1 = k ∧ p.2 = lookupD l k := by
  unfold lookupD
  cases hf : l.find? (fun p => p.1 = k) with
  | none => simp
  | some p =>
    right
    refine ⟨p, List.mem_of_find?_eq_some hf, ?_, by simp⟩
    have := List.find?_some hf
    simpa using this

/-- Range invariant of the inner loop of `find_longest_match`. -/
theorem innerLoop_inv {alo ahi blo bhi i : Nat}
    (hialo : alo ≤ i) (hiahi : i < ahi) {j2old : List (Nat × Nat)}
    (hold : ∀ p ∈ j2old, p.2 + blo ≤ p.1 + 1 ∧ p.2 + alo ≤ i) :
    ∀ (js : List Nat) (best : Best) (acc : List (Nat × Nat)),
      (∀ j ∈ js, blo ≤ j ∧ j < bhi) →
      (alo ≤ best.i ∧ blo ≤ best.j ∧ best.i + best.size ≤ ahi ∧
        best.j + best.size ≤ bhi) →
      (∀ p ∈ acc, p.1 < bhi ∧ p.2 + blo ≤ p.1 + 1 ∧ p.2 + alo ≤ i + 1) →
      (alo ≤ (innerLoop i j2old js best acc).1.i ∧
        blo ≤ (innerLoop i j2old js best acc).1.j ∧
        (innerLoop i j2old js best acc).1.i + (innerLoop i j2old js best acc).1.size ≤ ahi ∧
        (innerLoop i j2old js best acc).1.j + (innerLoop i j2old js best acc).1.size ≤ bhi) ∧
      ∀ p ∈ (innerLoop i j2old js best acc).2,
        p.1 < bhi ∧ p.2 + blo ≤ p.1 + 1 ∧ p.2 + alo ≤ i + 1 := by
  intro js
  induction js with
  | nil => intro best acc _ hb ha; exact ⟨hb, ha⟩
  | cons j js ih =>
    intro best acc hjs hb ha
    have hjblo : blo ≤ j := (hjs j (List.mem_cons_self j js)).1
    have hjbhi : j < bhi := (hjs j (List.mem_cons_self j js)).2
    simp only [innerLoop]
    set k := (if j = 0 then 0 else lookupD j2old (j - 1)) + 1 with hkdef
    have hk1 : k + blo ≤ j + 1 ∧ k + alo ≤ i + 1 := by
      rw [hkdef]
      by_cases hj0 : j = 0
      · rw [if_pos hj0]; omega
      · rw [if_neg hj0]
        rcases lookupD_cases j2old (j - 1) with h0 | ⟨p, hp, hpk, hpv⟩
        · rw [h0]; omega
        · have := hold p hp
          omega
    apply ih
    · intro j' hj'; exact hjs j' (List.mem_cons_of_mem _ hj')
    · split
      · rename_i hlt
        dsimp only
        omega
      · exact hb
    · intro p hp
      rcases List.mem_cons.1 hp with rfl | hp'
      · exact ⟨hjbhi, hk1.1, hk1.2⟩
      · exact ha p hp'

/-- Range invariant of the outer loop of `find_longest_match`. -/
theorem outerLoop_inv {a b : Str} {alo ahi blo bhi : Nat} :
    ∀ (rows : List Nat) (best : Best) (j2old : List (Nat × Nat)),
      (∀ i ∈ rows, alo ≤ i ∧ i < ahi) →
      List.Pairwise (· < ·) rows →
      (alo ≤ best.i ∧ blo ≤ best.j ∧ best.i + best.size ≤ ahi ∧
        best.j + best.size ≤ bhi) →
      (∀ p ∈ j2old, p.2 + blo ≤ p.1 + 1 ∧ ∀ i ∈ rows, p.2 + alo ≤ i) →
      (alo ≤ (outerLoop a b blo bhi rows best j2old).i ∧
        blo ≤ (outerLoop a b blo bhi rows best j2old).j ∧
        (outerLoop a b blo bhi rows best j2old).i +
          (outerLoop a b blo bhi rows best j2old).size ≤ ahi ∧
        (outerLoop a b blo bhi rows best j2old).j +
          (outerLoop a b blo bhi rows best j2old).size ≤ bhi) := by
  intro rows
  induction rows with
  | nil => intro best j2old _ _ hb _; exact hb
  | cons i is ih =>
    intro best j2old hrange hpw hb hold
    have hialo : alo ≤ i := (hrange i (List.mem_cons_self i is)).1
    have hiahi : i < ahi := (hrange i (List.mem_cons_self i is)).2
    have h1 := @innerLoop_inv alo ahi blo bhi i hialo hiahi j2old
      (fun p hp => ⟨(hold p hp).1, (hold p hp).2 i (List.mem_cons_self i is)⟩)
      ((b2j b (a.getD i ' ')).filter (fun j => decide (blo ≤ j) && decide (j < bhi)))
      best []
      (by
        intro j hj
        rw [List.mem_filter] at hj
        have := hj.2
        simp only [Bool.and_eq_true, decide_eq_true_eq] at this
        exact this)
      hb (by simp)
    simp only [outerLoop]
    apply ih
    · intro i' hi'; exact hrange i' (List.mem_cons_of_mem _ hi')
    · exact (List.pairwise_cons.1 hpw).2
    · exact h1.1
    · intro p hp
      refine ⟨(h1.2 p hp).2.1, ?_⟩
      intro i' hi'
      have hlt : i < i' := (List.pairwise_cons.1 hpw).1 i' hi'
      have := (h1.2 p hp).2.2
      omega

/-- The left extension preserves the range invariant. -/
theorem extLeft_inv {a b : Str} {alo blo ahi bhi : Nat} :
    ∀ (fuel : Nat) (best : Best),
      (alo ≤ best.i ∧ blo ≤ best.j ∧ best.i + best.size ≤ ahi ∧
        best.j + best.size ≤ bhi) →
      (alo ≤ (extLeft a b alo blo fuel best).i ∧
        blo ≤ (extLeft a b alo blo fuel best).j ∧
        (extLeft a b alo blo fuel best).i + (extLeft a b alo blo fuel best).size ≤ ahi ∧
        (extLeft a b alo blo fuel best).j + (extLeft a b alo blo fuel best).size ≤ bhi) := by
  intro fuel
  induction fuel with
  | zero => intro best hb; exact hb
  | succ n ih =>
    intro best hb
    simp only [extLeft]
    split
    · rename_i hc
      obtain ⟨hc1, hc2, -⟩ := hc
      apply ih
      dsimp only
      omega
    · exact hb

/-- The right extension preserves the range invariant. -/
theorem extRight_inv {a b : Str} {alo blo ahi bhi : Nat} :
    ∀ (fuel : Nat) (best : Best),
      (alo ≤ best.i ∧ blo ≤ best.j ∧ best.i + best.size ≤ ahi ∧
        best.j + best.size ≤ bhi) →
      (alo ≤ (extRight a b ahi bhi fuel best).i ∧
        blo ≤ (extRight a b ahi bhi fuel best).j ∧
        (extRight a b ahi bhi fuel best).i + (extRight a b ahi bhi fuel best).size ≤ ahi ∧
        (extRight a b ahi bhi fuel best).j + (extRight a b ahi bhi fuel best).size ≤ bhi) := by
  intro fuel
  induction fuel with
  | zero => intro best hb; exact hb
  | succ n ih =>
    intro best hb
    simp only [extRight]
    split
    · rename_i hc
      obtain ⟨hc1, hc2, -⟩ := hc
      apply ih
      dsimp only
      omega
    · exact hb

/-- The reported longest match lies inside the requested ranges. -/
theorem find_longest_match_inv (a b : Str) (alo ahi blo bhi : Nat)
    (h1 : alo ≤ ahi) (h2 : blo ≤ bhi) :
    alo ≤ (find_longest_match a b alo ahi blo bhi).i ∧
    blo ≤ (find_longest_match a b alo ahi blo bhi).j ∧
    (find_longest_match a b alo ahi blo bhi).i +
      (find_longest_match a b alo ahi blo bhi).size ≤ ahi ∧
    (find_longest_match a b alo ahi blo bhi).j +
      (find_longest_match a b alo ahi blo bhi).size ≤ bhi := by
  unfold find_longest_match
  apply extRight_inv
  apply extLeft_inv
  apply outerLoop_inv
  · intro i hi
    rcases List.mem_map.1 hi with ⟨x, hx, rfl⟩
    rw [List.mem_range] at hx
    omega
  · refine List.pairwise_map.2 ?_
    have := List.pairwise_lt_range (ahi - alo)
    exact this.imp (by omega)
  · exact ⟨le_refl _, le_refl _, by simpa using h1, by simpa using h2⟩
  · simp

/-- The total matched size is bounded by both range widths. -/
theorem matchesAux_le (a b : Str) :
    ∀ (fuel alo ahi blo bhi : Nat), alo ≤ ahi → blo ≤ bhi →
      matchesAux a b fuel alo ahi blo bhi + alo ≤ ahi ∧
      matchesAux a b fuel alo ahi blo bhi + blo ≤ bhi := by
  intro fuel
  induction fuel with
  | zero => intro alo ahi blo bhi h1 h2; simp only [matchesAux]; omega
  | succ n ih =>
    intro alo ahi blo bhi h1 h2
    simp only [matchesAux]
    split
    · omega
    · have hm := find_longest_match_inv a b alo ahi blo bhi h1 h2
      have hL := ih alo (find_longest_match a b alo ahi blo bhi).i blo
        (find_longest_match a b alo ahi blo bhi).j hm.1 hm.2.1
      have hR := ih ((find_longest_match a b alo ahi blo bhi).i +
          (find_longest_match a b alo ahi blo bhi).size) ahi
        ((find_longest_match a b alo ahi blo bhi).j +
          (find_longest_match a b alo ahi blo bhi).size) bhi hm.2.2.1 hm.2.2.2
      omega

/-- The total matched size never exceeds either sequence's length. -/
theorem matchesTotal_le (a b : Str) :
    matchesTotal a b ≤ a.length ∧ matchesTotal a b ≤ b.length := by
  unfold matchesTotal
  have := matchesAux_le a b (a.length + b.length + 1) 0 a.length 0 b.length
    (by omega) (by omega)
  omega

/-- The matching ratio is nonnegative. -/
theorem ratioQ_nonneg (a b : Str) : 0 ≤ ratioQ a b := by
  unfold ratioQ
  split
  · norm_num
  · positivity

/-- The matching ratio is at most one. -/
theorem ratioQ_le_one (a b : Str) : ratioQ a b ≤ 1 := by
  unfold ratioQ
  split
  · norm_num
  · rename_i hne
    rw [div_le_one (by exact_mod_cast Nat.pos_of_ne_zero hne)]
    have h := matchesTotal_le a b
    have : 2 * matchesTotal a b ≤ a.length + b.length := by omega
    exact_mod_cast this

/-- C7: the similarity score of any two documents is an integer in the
closed interval [0, 100], and the matching ratio of two empty field
values is 1. -/
theorem similarity_in_range :
    (∀ s1 s2 : Skill, 0 ≤ calculate_similarity s1 s2 ∧
      calculate_similarity s1 s2 ≤ 100) ∧
    ratioQ [] [] = 1 := by
  constructor
  · intro s1 s2
    unfold calculate_similarity weightedFields
    simp only [List.map_cons, List.map_nil, List.sum_cons, List.sum_nil]
    have b1 := ratioQ_nonneg (lower s1.name) (lower s2.name)
    have b1' := ratioQ_le_one (lower s1.name) (lower s2.name)
    have b2 := ratioQ_nonneg (lower s1.description) (lower s2.description)
    have b2' := ratioQ_le_one (lower s1.description) (lower s2.description)
    have b3 := ratioQ_nonneg (lower s1.what_i_do) (lower s2.what_i_do)
    have b3' := ratioQ_le_one (lower s1.what_i_do) (lower s2.what_i_do)
    have b4 := ratioQ_nonneg (lower s1.when_to_use) (lower s2.when_to_use)
    have b4' := ratioQ_le_one (lower s1.when_to_use) (lower s2.when_to_use)
    have b5 := ratioQ_nonneg (lower s1.steps) (lower s2.steps)
    have b5' := ratioQ_le_one (lower s1.steps) (lower s2.steps)
    constructor
    · apply Int.le_floor.2
      push_cast
      linarith
    · have hle : (3 / 20 * ratioQ (lower s1.name) (lower s2.name) +
          (1 / 4 * ratioQ (lower s1.description) (lower s2.description) +
          (3 / 10 * ratioQ (lower s1.what_i_do) (lower s2.what_i_do) +
          (1 / 5 * ratioQ (lower s1.when_to_use) (lower s2.when_to_use) +
          (1 / 10 * ratioQ (lower s1.steps) (lower s2.steps) + 0))))) * 100 ≤
          (100 : ℚ) := by linarith
      calc _ ≤ ⌊(100 : ℚ)⌋ := Int.floor_le_floor hle
        _ = 100 := by norm_num
  · unfold ratioQ
    norm_num

/-! Section C1: symmetry of the similarity score -/

/-- An empty first sequence matches nothing. -/
theorem matchesTotal_nil_left (b : Str) : matchesTotal [] b = 0 :=
  Nat.le_zero.1 (by simpa using (matchesTotal_le [] b).1)

/-- An empty second sequence matches nothing. -/
theorem matchesTotal_nil_right (a : Str) : matchesTotal a [] = 0 :=
  Nat.le_zero.1 (by simpa using (matchesTotal_le a []).2)

/-- The per-field ratio is symmetric when the two field values are equal
or one of them is empty. -/
theorem ratioQ_symm_aux (x y : Str) (h : x = y ∨ x = [] ∨ y = []) :
    ratioQ (lower x) (lower y) = ratioQ (lower y) (lower x) := by
  rcases h with rfl | rfl | rfl
  · rfl
  · unfold ratioQ
    simp [lower, matchesTotal_nil_left, matchesTotal_nil_right]
  · unfold ratioQ
    simp [lower, matchesTotal_nil_left, matchesTotal_nil_right]

/-- C1 counterexample: two documents that differ only in their
descriptions `aba` and `babba` receive similarity 93 in one order and 87
in the other — the greedy sequence matcher is order-dependent, so the
pairwise score is not symmetric. -/
theorem similarity_not_symmetric_counterexample :
    calculate_similarity skillAba skillBabba = 93 ∧
    calculate_similarity skillBabba skillAba = 87 ∧
    calculate_similarity skillAba skillBabba ≠
      calculate_similarity skillBabba skillAba := by
  have e0 : ratioQ (lower ([] : Str)) (lower ([] : Str)) = 1 := by
    unfold ratioQ
    simp [lower]
  have e1 : ratioQ (lower "aba".toList) (lower "babba".toList) = 3 / 4 := by
    have hm : matchesTotal (lower "aba".toList) (lower "babba".toList) = 3 := by
      decide
    unfold ratioQ
    rw [hm]
    norm_num [lower]
  have e2 : ratioQ (lower "babba".toList) (lower "aba".toList) = 1 / 2 := by
    have hm : matchesTotal (lower "babba".toList) (lower "aba".toList) = 2 := by
      decide
    unfold ratioQ
    rw [hm]
    norm_num [lower]
  have h1 : calculate_similarity skillAba skillBabba = 93 := by
    unfold calculate_similarity weightedFields
    simp only [List.map_cons, List.map_nil, List.sum_cons, List.sum_nil,
      skillAba, skillBabba, emptySkill]
    rw [e1]
    simp only [e0]
    norm_num [Int.floor_eq_iff]
  have h2 : calculate_similarity skillBabba skillAba = 87 := by
    unfold calculate_similarity weightedFields
    simp only [List.map_cons, List.map_nil, List.sum_cons, List.sum_nil,
      skillAba, skillBabba, emptySkill]
    rw [e2]
    simp only [e0]
    norm_num [Int.floor_eq_iff]
  exact ⟨h1, h2, by rw [h1, h2]; decide⟩

/-- C1 (amended): the pairwise similarity is order-independent on every
pair of documents whose corresponding weighted field values are equal or
have at least one of the two empty; in general the greedy matcher's
ratio, and hence the score, may depend on the argument order. -/
theorem similarity_symmetric_on_aligned_fields (s1 s2 : Skill)
    (hname : s1.name = s2.name ∨ s1.name = [] ∨ s2.name = [])
    (hdesc : s1.description = s2.description ∨ s1.description = [] ∨
      s2.description = [])
    (hwhat : s1.what_i_do = s2.what_i_do ∨ s1.what_i_do = [] ∨
      s2.what_i_do = [])
    (hwhen : s1.when_to_use = s2.when_to_use ∨ s1.when_to_use = [] ∨
      s2.when_to_use = [])
    (hsteps : s1.steps = s2.steps ∨ s1.steps = [] ∨ s2.steps = []) :
    calculate_similarity s1 s2 = calculate_similarity s2 s1 := by
  unfold calculate_similarity weightedFields
  simp only [List.map_cons, List.map_nil, List.sum_cons, List.sum_nil]
  rw [ratioQ_symm_aux _ _ hname, ratioQ_symm_aux _ _ hdesc,
    ratioQ_symm_aux _ _ hwhat, ratioQ_symm_aux _ _ hwhen,
    ratioQ_symm_aux _ _ hsteps]

/-- Witness for C1 (amended): `skillAba` against the empty document. -/
theorem similarity_symmetric_on_aligned_fields_witness :
    (skillAba.name = emptySkill.name ∨ skillAba.name = [] ∨
      emptySkill.name = []) ∧
    (skillAba.description = emptySkill.description ∨
      skillAba.description = [] ∨ emptySkill.description = []) ∧
    (skillAba.what_i_do = emptySkill.what_i_do ∨ skillAba.what_i_do = [] ∨
      emptySkill.what_i_do = []) ∧
    (skillAba.when_to_use = emptySkill.when_to_use ∨
      skillAba.when_to_use = [] ∨ emptySkill.when_to_use = []) ∧
    (skillAba.steps = emptySkill.steps ∨ skillAba.steps = [] ∨
      emptySkill.steps = []) ∧
    calculate_similarity skillAba emptySkill =
      calculate_similarity emptySkill skillAba :=
  ⟨Or.inl rfl, Or.inr (Or.inr rfl), Or.inl rfl, Or.inl rfl, Or.inl rfl,
    similarity_symmetric_on_aligned_fields skillAba emptySkill
      (Or.inl rfl) (Or.inr (Or.inr rfl)) (Or.inl rfl) (Or.inl rfl)
      (Or.inl rfl)⟩

/-! Section C5: ordering of the aggregate outputs -/

/-- C5 counterexample: on a corpus loaded in the order `b`, `a` (with `b`
the more expensive document), the cost records and the compatibility
rows both come out in the order `b`, `a`, which is not sorted by name —
only the duplicity matrix is name-sorted. -/
theorem outputs_not_name_sorted_counterexample :
    (analyze_token_costs corpusBA).map (·.name) = ["b".toList, "a".toList] ∧
    (check_subagent_compatibility corpusBA).map (·.1) =
      ["b".toList, "a".toList] ∧
    ¬ List.Sorted (· ≤ ·) ["b".toList, "a".toList] := by
  refine ⟨?_, by decide, by decide⟩
  have h1 : estimate_tokens skill8000 = 2200 := by rw [estimate_tokens_eq]; decide
  have h2 : estimate_tokens emptySkill = 0 := by rw [estimate_tokens_eq]; decide
  unfold analyze_token_costs corpusBA
  simp only [List.map_cons, List.map_nil, h1, h2, List.insertionSort,
    List.orderedInsert]
  norm_num

/-- C5 (amended): the duplicity-matrix rows are sorted by document name;
the per-document cost records are sorted by token estimate, descending;
the compatibility-matrix rows keep the corpus load order. -/
theorem outputs_ordering (corpus : List (Str × Skill)) :
    List.Sorted (· ≤ ·) ((calculate_duplicity_matrix corpus).map (·.1)) ∧
    List.Sorted (fun u v : TokenRecord => v.tokens ≤ u.tokens)
      (analyze_token_costs corpus) ∧
    (check_subagent_compatibility corpus).map (·.1) = corpus.map (·.1) := by
  refine ⟨?_, ?_, ?_⟩
  · unfold calculate_duplicity_matrix duplicityMatrixWith
    rw [List.map_map]
    have : ((fun x : Str × List (Str × ℤ) => x.1) ∘
        (fun n1 => (n1, (sortNames (corpus.map (·.1))).map (fun n2 =>
          (n2, if n1 = n2 then 100 else
            calculate_similarity
              ((((corpus.find? (fun p => p.1 = n1)).map (·.2)).getD default))
              ((((corpus.find? (fun p => p.1 = n2)).map (·.2)).getD default))))))) =
        id := by
      funext n1
      rfl
    rw [this, List.map_id]
    unfold sortNames
    exact List.sorted_insertionSort _ _
  · unfold analyze_token_costs
    haveI : IsTotal TokenRecord (fun u v => v.tokens ≤ u.tokens) :=
      ⟨fun a b => le_total b.tokens a.tokens⟩
    haveI : IsTrans TokenRecord (fun u v => v.tokens ≤ u.tokens) :=
      ⟨fun a b c hab hbc => le_trans hbc hab⟩
    exact List.sorted_insertionSort _ _
  · unfold check_subagent_compatibility
    rw [List.map_map]
    rfl

end SkillAuditor
